import Mathlib

/-!
Verification of the commit-notification script `discord_notify.py`.

Strings are modelled as `List Char`; Python integers as `Int` (or `Nat` where
the source value is a length or count and hence nonnegative).  Python slicing
`s[:n]` (which clamps and accepts negative indices), `str.rfind`, floor
division `//`, `str.join` and f-string interpolation are embedded by the
functions below.  The git subprocess queries and the HTTP response are
modelled as oracles (explicit function parameters), since their values come from
outside the script.
-/

/-- Convert a Lean string literal to the character-list representation. -/
def s2l (s : String) : List Char := s.data

/-- Python slice `l[:n]`: a nonnegative stop clamps to the length, a negative
stop counts from the end, clamping at zero. -/
def pyTake (n : Int) (l : List Char) : List Char :=
  if 0 ≤ n then l.take n.toNat else l.take (l.length - (-n).toNat)

/-- Python `str.rfind(sub)`: the greatest index at which `sub` occurs as a
substring, or `-1` when it does not occur. -/
def pyRfind (sub l : List Char) : Int :=
  match (List.range (l.length + 1)).reverse.find? (fun i => sub.isPrefixOf (l.drop i)) with
  | some i => (i : Int)
  | none => -1

/-- Embedding of `truncate_text(text, max_length)` from discord_notify.py. -/
def truncate_text (text : List Char) (max_length : Int) : List Char :=
  if (text.length : Int) ≤ max_length then text
  else
    let truncated := pyTake (max_length - 3) text
    let last_double_newline := pyRfind ['\n', '\n'] truncated
    if Int.fdiv max_length 2 < last_double_newline then
      pyTake last_double_newline truncated ++ ['\n', '\n', '.', '.', '.']
    else
      let last_period := pyRfind ['.', ' '] truncated
      if Int.fdiv max_length 2 < last_period then
        pyTake (last_period + 1) truncated ++ [' ', '.', '.', '.']
      else
        truncated ++ ['.', '.', '.']

/-- Python `str(n)` for a natural number. -/
def natStr (n : Nat) : List Char := Nat.toDigits 10 n

/-- Python `sep.join(parts)`. -/
def joinStr (sep : List Char) : List (List Char) → List Char
  | [] => []
  | [x] => x
  | x :: y :: ys => x ++ sep ++ joinStr sep (y :: ys)

/-- The commit dictionary built in `get_commits_in_range` and in `main`. -/
structure Commit where
  sha : List Char
  short_sha : List Char
  message : List Char
  body : List Char
  author : List Char
deriving DecidableEq

/-- Construction of the commit dictionary from a sha and the
(message, body, author) triple returned by `get_commit_info`:
the short sha is `sha[:8]`. -/
def mkCommitDict (sha : List Char) (info : List Char × List Char × List Char) : Commit :=
  { sha := sha
    short_sha := pyTake 8 sha
    message := info.1
    body := info.2.1
    author := info.2.2 }

/-- One name/value/inline-flag field of a Discord embed. -/
structure DiscordField where
  name : List Char
  value : List Char
  inline : Bool
deriving DecidableEq

/-- The embed object produced by `create_discord_payload_for_commits`
(the payload is `{"embeds": [e]}` for a single such embed `e`). -/
structure DiscordEmbed where
  title : List Char
  description : List Char
  color : Nat
  fields : List DiscordField
  timestamp : List Char
deriving DecidableEq

/-- Embedding of `format_commit_for_discord(commit, repo_name)`. -/
def format_commit_for_discord (commit : Commit) (repo_name : List Char) : List Char :=
  let commit_url := s2l (r"https://github.com/") ++ repo_name ++ s2l (r"/commit/") ++ commit.sha
  s2l (r"[`") ++ commit.short_sha ++ s2l (r"`](") ++ commit_url ++ s2l (r") ")
    ++ commit.message ++ s2l (r" - ") ++ commit.author

/-- A UTC wall-clock instant as `datetime.now(timezone.utc)` decomposes it. -/
structure PyDatetime where
  year : Nat
  month : Nat
  day : Nat
  hour : Nat
  minute : Nat
  second : Nat
  microsecond : Nat
deriving DecidableEq

/-- Zero padding to a minimum width, as the strftime numeric directives do. -/
def padStr (w n : Nat) : List Char :=
  List.replicate (w - (Nat.toDigits 10 n).length) '0' ++ Nat.toDigits 10 n

/-- Output of `strftime` with format %Y-%m-%dT%H:%M:%S.%fZ — note that the
literal Z is part of the format string, and %f prints six digits. -/
def strftimeIso (t : PyDatetime) : List Char :=
  padStr 4 t.year ++ ['-'] ++ padStr 2 t.month ++ ['-'] ++ padStr 2 t.day ++ ['T']
    ++ padStr 2 t.hour ++ [':'] ++ padStr 2 t.minute ++ [':'] ++ padStr 2 t.second
    ++ ['.'] ++ padStr 6 t.microsecond ++ ['Z']

/-- The timestamp expression in `create_discord_payload_for_commits`: the
strftime output above, sliced by [:-3], with a final Z appended. -/
def mk_timestamp (t : PyDatetime) : List Char :=
  pyTake (-3) (strftimeIso t) ++ ['Z']

/-- The truncation loop over digest lines: `total` is `len(commit_lines)`,
the two accumulators are `current_length` and `len(truncated_lines)`.
Returns the final `truncated_lines` list. -/
def accumulateLines (total : Nat) : List (List Char) → Nat → Nat → List (List Char)
  | [], _, _ => []
  | line :: rest, current_length, taken =>
    if 1900 < current_length + line.length + 1 then
      [s2l (r"...and ") ++ natStr (total - taken) ++ s2l (r" more commits")]
    else
      line :: accumulateLines total rest (current_length + line.length + 1) (taken + 1)

/-- Embedding of `create_discord_payload_for_commits(commits, repo_name)`.
Two extra parameters stand for effects the Python code reads implicitly:
`now` is the wall clock behind `datetime.now(timezone.utc)`, and `authorsSet`
is the list `list(set(...))` of distinct author names in the iteration order
chosen by the Python hash-set (that order is not specified by the language,
so theorems quantify over every enumeration of the distinct authors). -/
def create_discord_payload_for_commits (commits : List Commit) (repo_name : List Char)
    (now : PyDatetime) (authorsSet : List (List Char)) : DiscordEmbed :=
  let timestamp := mk_timestamp now
  match commits with
  | [commit] =>
    let commit_url := s2l (r"https://github.com/") ++ repo_name ++ s2l (r"/commit/") ++ commit.sha
    { title := truncate_text commit.message 256
      description := truncate_text commit.body 2000
      color := 5814783
      fields := [
        { name := s2l (r"Author"), value := commit.author, inline := true },
        { name := s2l (r"Commit"),
          value := s2l (r"[") ++ commit.short_sha ++ s2l (r"](") ++ commit_url ++ s2l (r")")
          inline := true }]
      timestamp := timestamp }
  | _ =>
    let commit_lines := commits.map (fun c => format_commit_for_discord c repo_name)
    let joined := joinStr ['\n'] commit_lines
    let description :=
      if 2000 < joined.length then
        joinStr ['\n'] (accumulateLines commit_lines.length commit_lines 0 0)
      else joined
    let author_text :=
      if authorsSet.length ≤ 3 then joinStr (s2l (r", ")) authorsSet
      else authorsSet.headD [] ++ s2l (r" and ") ++ natStr (authorsSet.length - 1)
        ++ s2l (r" others")
    { title := natStr commits.length ++ s2l (r" commits pushed to main")
      description := description
      color := 5814783
      fields := [
        { name := s2l (r"Authors"), value := author_text, inline := true },
        { name := s2l (r"Commits"), value := natStr commits.length, inline := true }]
      timestamp := timestamp }

/-- The maximal prefix of the digest lines the truncation loop keeps: it
stops before the first line whose separator-inclusive running total would
exceed 1900 characters.  Used to characterize `accumulateLines`. -/
def greedyPref (current_length : Nat) : List (List Char) → List (List Char)
  | [] => []
  | line :: rest =>
    if 1900 < current_length + line.length + 1 then []
    else line :: greedyPref (current_length + line.length + 1) rest

/-- Separator-inclusive cost of a list of lines: each line counts its length
plus one for the newline that joins it, matching `current_length` updates. -/
def costSum : List (List Char) → Nat
  | [] => 0
  | l :: ls => l.length + 1 + costSum ls

/-- What `get_commit_range` can observe about the GitHub event file:
no `GITHUB_EVENT_PATH` at all, a path whose open fails (`FileNotFoundError`),
a file that is not valid JSON (`json.JSONDecodeError`), or parsed JSON whose
`before` and `after` lookups give a string or nothing (`dict.get` returns
`None` both for an absent key and for an explicit JSON `null`). -/
inductive EventFile where
  | noPath
  | unreadable
  | badJson
  | parsed (before : Option (List Char)) (after : Option (List Char))
deriving DecidableEq

/-- Result of `get_commit_range`: the returned pair, plus whether a warning
line was printed (the function never exits the process). -/
structure RangeResult where
  before : Option (List Char)
  after : Option (List Char)
  warned : Bool
deriving DecidableEq

/-- The all-zero sentinel GitHub sends as `before` for a new branch. -/
def zeroSha : List Char := List.replicate 40 '0'

/-- Embedding of `get_commit_range()`.  The Python guard is
`if before and before != zero-sentinel`: truthiness of a string is
non-emptiness, and `None` is falsy. -/
def get_commit_range : EventFile → RangeResult
  | .noPath => { before := none, after := none, warned := true }
  | .unreadable => { before := none, after := none, warned := true }
  | .badJson => { before := none, after := none, warned := true }
  | .parsed b a =>
    match b with
    | some bv =>
      if bv ≠ [] ∧ bv ≠ zeroSha then { before := some bv, after := a, warned := false }
      else { before := none, after := none, warned := false }
    | none => { before := none, after := none, warned := false }

/-- Oracle for the git subprocess queries: `head_info` is the
(message, body, author) triple `get_commit_info()` returns for HEAD,
`log_info sha` the triple for a given sha, and `rev_list b a` the list of
shas `git rev-list --reverse b..a` prints (already split and
filtered of empty strings, as `get_commits_in_range` does). -/
structure GitOracle where
  head_info : List Char × List Char × List Char
  log_info : List Char → List Char × List Char × List Char
  rev_list : List Char → List Char → List (List Char)

/-- Python truthiness of an optional string. -/
def optTruthy : Option (List Char) → Bool
  | some v => !v.isEmpty
  | none => false

/-- The commit-list selection in `main()`: use the range when both ends are
truthy and the range is nonempty, otherwise fall back to a single commit
built from `GITHUB_SHA` and `get_commit_info()` on HEAD. -/
def selectCommits (github_sha : List Char) (g : GitOracle) (r : RangeResult) : List Commit :=
  if optTruthy r.before && optTruthy r.after then
    let commits := (g.rev_list (r.before.getD []) (r.after.getD [])).map
      (fun sha => mkCommitDict sha (g.log_info sha))
    if commits.isEmpty then [mkCommitDict github_sha g.head_info] else commits
  else [mkCommitDict github_sha g.head_info]

/-- Observable outcome of the delivery section of `main()`. -/
structure DeliveryOutcome where
  exitCode : Nat
  printedSuccess : Bool
  loggedBody : Bool
  printedWebhookGone : Bool
deriving DecidableEq

/-- Python `needle in hay` on strings. -/
def substrOf (needle hay : List Char) : Bool :=
  (List.range (hay.length + 1)).any (fun i => needle.isPrefixOf (hay.drop i))

/-- The marker Discord puts in the body of a dead-webhook 403 response. -/
def err1010 : List Char := s2l (r"error code: 1010")

/-- Embedding of the webhook POST handling in `main()`, as a function of the
HTTP status and body of the response.  `urllib.request.urlopen` raises
`HTTPError` for any non-2xx status, so the in-`with` branch only sees 2xx
responses; the `except HTTPError` branch logs the body and checks for the
403 `error code: 1010` signature.  Reading the error body is modelled as
succeeding. -/
def send_webhook (status : Nat) (body : List Char) : DeliveryOutcome :=
  if 200 ≤ status ∧ status < 300 then
    if status = 204 then
      { exitCode := 0, printedSuccess := true, loggedBody := false, printedWebhookGone := false }
    else
      { exitCode := 1, printedSuccess := false, loggedBody := true, printedWebhookGone := false }
  else
    { exitCode := 1, printedSuccess := false, loggedBody := true
      printedWebhookGone := (status == 403) && substrOf err1010 body }

/-- The process environment the script reads. -/
structure Env where
  github_sha : Option (List Char)
  github_repository : Option (List Char)
  discord_webhook : Option (List Char)
  event_file : EventFile
  test_mode : Option (List Char)

/-- Python truthiness of `os.environ.get(name)`, as `validate_environment`
tests it. -/
def envPresent : Option (List Char) → Bool
  | some v => !v.isEmpty
  | none => false

/-- Observable outcome of a whole run of `main()`: the exit code, whether an
HTTP request was issued, and the payload printed in test mode (if any). -/
structure MainResult where
  exitCode : Nat
  sentHttp : Bool
  printedPayload : Option DiscordEmbed
deriving DecidableEq

/-- Embedding of `main()`.  `status` and `body` are the HTTP response the
webhook would give if contacted; `now` and `auths` parametrize the clock and
the hash-set enumeration as in `create_discord_payload_for_commits`. -/
def mainRun (env : Env) (g : GitOracle) (now : PyDatetime) (auths : List (List Char))
    (status : Nat) (body : List Char) : MainResult :=
  if !envPresent env.github_sha then { exitCode := 1, sentHttp := false, printedPayload := none }
  else if !envPresent env.github_repository then
    { exitCode := 1, sentHttp := false, printedPayload := none }
  else if !envPresent env.discord_webhook then
    { exitCode := 1, sentHttp := false, printedPayload := none }
  else
    let repo_name := env.github_repository.getD []
    let r := get_commit_range env.event_file
    let commits := selectCommits (env.github_sha.getD []) g r
    let payload := create_discord_payload_for_commits commits repo_name now auths
    if env.test_mode = some (s2l (r"1")) then
      { exitCode := 0, sentHttp := false, printedPayload := some payload }
    else
      let out := send_webhook status body
      { exitCode := out.exitCode, sentHttp := true, printedPayload := none }

/-- Modelled from the spec: the timestamp shape the specification asserts,
`YYYY-MM-DDTHH:MM:SS.mmmZ` with exactly three fractional-second digits
followed by `Z` (24 characters, dot at index 19, digits at 20..22).
This is the comparison predicate for claim C4, not code from the script. -/
def specMilliTimestamp (s : List Char) : Bool :=
  s.length == 24 && (s.getD 19 ' ' == '.')
    && ((s.drop 20).take 3).all (fun c => ('0' ≤ c) && (c ≤ '9'))
    && (s.getD 23 ' ' == 'Z')

/-! ### Concrete inputs used by witnesses and counterexamples -/

/-- A text whose last paragraph break (index 9) lies at or after the midpoint
of the 17-character truncation candidate for limit 20, but not strictly after
20 // 2 = 10. -/
def c2text : List Char := List.replicate 9 'a' ++ ['\n', '\n'] ++ List.replicate 10 'a'

/-- A text whose last paragraph break (index 12) lies strictly after
20 // 2 = 10, so the paragraph cut fires for limit 20. -/
def c2wtext : List Char := List.replicate 12 'a' ++ ['\n', '\n'] ++ List.replicate 10 'a'

/-- A commit whose 2000-character subject makes its digest line alone exceed
the 1900-character budget. -/
def c3big : Commit :=
  mkCommitDict (s2l (r"aaaabbbbccccddddeeeeffff0000111122223333"))
    ((List.replicate 2000 'a'), [], (s2l (r"Alice")))

/-- A second, small commit for the digest-truncation witness. -/
def c3small : Commit :=
  mkCommitDict (s2l (r"bbbbccccddddeeeeffff0000111122223333aaaa"))
    ((s2l (r"Second commit")), [], (s2l (r"Bob")))

def c3commits : List Commit := [c3big, c3small]

def c3repo : List Char := s2l (r"vrischmann/sketch")

def c3lines : List (List Char) :=
  c3commits.map (fun c => format_commit_for_discord c c3repo)

/-- Four commits by four distinct authors, for the authors-field witness. -/
def c5commits : List Commit :=
  [ mkCommitDict (s2l (r"1111111111111111111111111111111111111111"))
      ((s2l (r"one")), [], (s2l (r"Alice"))),
    mkCommitDict (s2l (r"2222222222222222222222222222222222222222"))
      ((s2l (r"two")), [], (s2l (r"Bob"))),
    mkCommitDict (s2l (r"3333333333333333333333333333333333333333"))
      ((s2l (r"three")), [], (s2l (r"Carol"))),
    mkCommitDict (s2l (r"4444444444444444444444444444444444444444"))
      ((s2l (r"four")), [], (s2l (r"Dave"))) ]

/-- One possible hash-set enumeration of the four distinct authors. -/
def c5auths : List (List Char) :=
  [s2l (r"Bob"), s2l (r"Alice"), s2l (r"Carol"), s2l (r"Dave")]

/-- The concrete commit used to exhibit the digest line shape. -/
def c6commit : Commit :=
  mkCommitDict (s2l (r"0123456789abcdef0123456789abcdef01234567"))
    ((s2l (r"Fix bug")), [], (s2l (r"Alice")))

def c6repo : List Char := s2l (r"vrischmann/sketch")

/-- The build instant used for the timestamp-format theorem. -/
def c4now : PyDatetime :=
  { year := 2025, month := 3, day := 4, hour := 5, minute := 6, second := 7
    microsecond := 123456 }

/-- An environment with all required variables present and test mode on. -/
def c9env : Env :=
  { github_sha := some (s2l (r"0123456789abcdef0123456789abcdef01234567"))
    github_repository := some (s2l (r"vrischmann/sketch"))
    discord_webhook := some (s2l (r"https://discord.example/webhook"))
    event_file := EventFile.noPath
    test_mode := some (s2l (r"1")) }

/-- A git oracle for the end-to-end witnesses. -/
def c9git : GitOracle :=
  { head_info := ((s2l (r"Fix bug")), [], (s2l (r"Alice")))
    log_info := fun _ => ([], [], [])
    rev_list := fun _ _ => [] }

/-! ### Helper lemmas -/

theorem pyRfind_cases (sub l : List Char) :
    pyRfind sub l = -1 ∨
      (0 ≤ pyRfind sub l ∧ (pyRfind sub l).toNat + sub.length ≤ l.length) := by
  cases h : (List.range (l.length + 1)).reverse.find? (fun i => sub.isPrefixOf (l.drop i)) with
  | none =>
    left
    simp only [pyRfind, h]
  | some i =>
    right
    have hp := List.find?_some h
    have hm := List.mem_of_find?_eq_some h
    rw [List.mem_reverse, List.mem_range] at hm
    have hpre : sub <+: l.drop i := List.isPrefixOf_iff_prefix.mp hp
    have hlen := hpre.length_le
    rw [List.length_drop] at hlen
    simp only [pyRfind, h]
    omega

theorem pyTake_length_of_le (n : Int) (l : List Char) (h0 : 0 ≤ n)
    (h1 : n ≤ (l.length : Int)) : ((pyTake n l).length : Int) = n := by
  unfold pyTake
  rw [if_pos h0, List.length_take]
  omega

theorem two_mul_fdiv_two_ge (L : Int) : L - 1 ≤ 2 * Int.fdiv L 2 := by
  rw [Int.fdiv_eq_ediv L (by norm_num)]
  omega

theorem truncate_text_branches (text : List Char) (L : Int) (h : L < (text.length : Int)) :
    (Int.fdiv L 2 < pyRfind ['\n', '\n'] (pyTake (L - 3) text) →
      truncate_text text L
        = pyTake (pyRfind ['\n', '\n'] (pyTake (L - 3) text)) (pyTake (L - 3) text)
            ++ ['\n', '\n', '.', '.', '.']) ∧
    (pyRfind ['\n', '\n'] (pyTake (L - 3) text) ≤ Int.fdiv L 2 →
      Int.fdiv L 2 < pyRfind ['.', ' '] (pyTake (L - 3) text) →
      truncate_text text L
        = pyTake (pyRfind ['.', ' '] (pyTake (L - 3) text) + 1) (pyTake (L - 3) text)
            ++ [' ', '.', '.', '.']) ∧
    (pyRfind ['\n', '\n'] (pyTake (L - 3) text) ≤ Int.fdiv L 2 →
      pyRfind ['.', ' '] (pyTake (L - 3) text) ≤ Int.fdiv L 2 →
      truncate_text text L = pyTake (L - 3) text ++ ['.', '.', '.']) := by
  have hnle : ¬ (text.length : Int) ≤ L := by omega
  refine ⟨fun h1 => ?_, fun h1 h2 => ?_, fun h1 h2 => ?_⟩
  · simp only [truncate_text, if_neg hnle, if_pos h1]
  · simp only [truncate_text, if_neg hnle, if_neg (not_lt.mpr h1), if_pos h2]
  · simp only [truncate_text, if_neg hnle, if_neg (not_lt.mpr h1), if_neg (not_lt.mpr h2)]

/-! ### Claim theorems -/

/-- Claim C1 (amended): for every text and every limit L with 3 ≤ L, if the
text fits within L it is returned unchanged; otherwise the result is at most
L characters long and ends with one of the three ellipsis suffixes.  The
restriction 3 ≤ L is forced: for L < 3 the appended ellipsis can push the
result past the limit (see the counterexample).  The two call sites in the
script use L = 256 and L = 2000. -/
theorem truncate_text_length_suffix (text : List Char) (L : Int) (hL : 3 ≤ L) :
    ((text.length : Int) ≤ L → truncate_text text L = text) ∧
    (L < (text.length : Int) →
      ((truncate_text text L).length : Int) ≤ L ∧
      ((∃ a, truncate_text text L = a ++ ['\n', '\n', '.', '.', '.']) ∨
       (∃ a, truncate_text text L = a ++ [' ', '.', '.', '.']) ∨
       (∃ a, truncate_text text L = a ++ ['.', '.', '.']))) := by
  constructor
  · intro hle
    unfold truncate_text
    rw [if_pos hle]
  · intro hgt
    have hfd : 1 ≤ Int.fdiv L 2 := by
      have := two_mul_fdiv_two_ge L
      omega
    have hcl : ((pyTake (L - 3) text).length : Int) = L - 3 :=
      pyTake_length_of_le _ _ (by omega) (by omega)
    obtain ⟨hB1, hB2, hB3⟩ := truncate_text_branches text L hgt
    by_cases hA : Int.fdiv L 2 < pyRfind ['\n', '\n'] (pyTake (L - 3) text)
    · rcases pyRfind_cases ['\n', '\n'] (pyTake (L - 3) text) with hp | ⟨hp0, hp2⟩
      · omega
      · rw [hB1 hA]
        simp only [List.length_cons, List.length_nil] at hp2
        have hlen : ((pyTake (pyRfind ['\n', '\n'] (pyTake (L - 3) text))
            (pyTake (L - 3) text)).length : Int) = pyRfind ['\n', '\n'] (pyTake (L - 3) text) :=
          pyTake_length_of_le _ _ hp0 (by omega)
        constructor
        · rw [List.length_append]
          simp only [List.length_cons, List.length_nil]
          push_cast
          omega
        · exact Or.inl ⟨_, rfl⟩
    · push_neg at hA
      by_cases hS : Int.fdiv L 2 < pyRfind ['.', ' '] (pyTake (L - 3) text)
      · rcases pyRfind_cases ['.', ' '] (pyTake (L - 3) text) with hq | ⟨hq0, hq2⟩
        · omega
        · rw [hB2 hA hS]
          simp only [List.length_cons, List.length_nil] at hq2
          have hlen : ((pyTake (pyRfind ['.', ' '] (pyTake (L - 3) text) + 1)
              (pyTake (L - 3) text)).length : Int)
              = pyRfind ['.', ' '] (pyTake (L - 3) text) + 1 :=
            pyTake_length_of_le _ _ (by omega) (by omega)
          constructor
          · rw [List.length_append]
            simp only [List.length_cons, List.length_nil]
            push_cast
            omega
          · exact Or.inr (Or.inl ⟨_, rfl⟩)
      · push_neg at hS
        rw [hB3 hA hS]
        constructor
        · rw [List.length_append]
          simp only [List.length_cons, List.length_nil]
          push_cast
          omega
        · exact Or.inr (Or.inr ⟨_, rfl⟩)

/-- Claim C1 counterexample: with limit 2 and the four-character text aaaa,
the result has six characters, exceeding the limit, because the Python slice
text[:max_length - 3] becomes text[:-1] for max_length = 2 and the three
ellipsis dots are appended on top. -/
theorem truncate_text_small_limit_cex :
    2 < ((['a', 'a', 'a', 'a'] : List Char).length : Int) ∧
    ¬ ((truncate_text ['a', 'a', 'a', 'a'] 2).length : Int) ≤ 2 := by decide

/-- Witness for the amended claim C1 at a concrete input. -/
theorem truncate_text_length_suffix_witness :
    ((truncate_text (List.replicate 20 'a') 10).length : Int) ≤ 10 :=
  ((truncate_text_length_suffix (List.replicate 20 'a') 10 (by norm_num)).2 (by decide)).1

/-- Claim C2 (amended): for a text longer than the limit L, the candidate is
the Python slice text[:L-3]; the paragraph cut fires exactly when the last
paragraph break of the candidate lies strictly after L // 2 (floor division
of the whole limit, not the candidate midpoint), the sentence cut fires
exactly when the paragraph cut does not and the last sentence break lies
strictly after L // 2, and otherwise the candidate is hard-truncated.  Any
boundary cut keeps at least (L-3)/2 characters, since an index strictly
greater than L // 2 satisfies 2·index ≥ L - 3. -/
theorem truncate_text_cut_points (text cand : List Char) (L p q : Int)
    (hlen : L < (text.length : Int))
    (hcand : cand = pyTake (L - 3) text)
    (hp : p = pyRfind ['\n', '\n'] cand)
    (hq : q = pyRfind ['.', ' '] cand) :
    (Int.fdiv L 2 < p →
      truncate_text text L = pyTake p cand ++ ['\n', '\n', '.', '.', '.'] ∧ L - 3 ≤ 2 * p) ∧
    (p ≤ Int.fdiv L 2 → Int.fdiv L 2 < q →
      truncate_text text L = pyTake (q + 1) cand ++ [' ', '.', '.', '.']
        ∧ L - 3 ≤ 2 * (q + 1)) ∧
    (p ≤ Int.fdiv L 2 → q ≤ Int.fdiv L 2 →
      truncate_text text L = cand ++ ['.', '.', '.']) := by
  subst hcand
  subst hp
  subst hq
  obtain ⟨hB1, hB2, hB3⟩ := truncate_text_branches text L hlen
  have h2f := two_mul_fdiv_two_ge L
  exact ⟨fun h1 => ⟨hB1 h1, by omega⟩, fun h1 h2 => ⟨hB2 h1 h2, by omega⟩, hB3⟩

/-- Claim C2 counterexample: for limit 20 the candidate has 17 characters and
its last paragraph break sits at index 9, at or after the candidate midpoint
(2·9 ≥ 17), yet the code hard-truncates instead of cutting there, because its
actual threshold is the strict comparison 9 > 20 // 2 = 10, which fails. -/
theorem truncate_text_midpoint_cex :
    20 < ((c2text).length : Int) ∧
    pyRfind ['\n', '\n'] (pyTake (20 - 3) c2text) = 9 ∧
    ((pyTake (20 - 3) c2text).length : Int) ≤ 2 * 9 ∧
    truncate_text c2text 20 = pyTake (20 - 3) c2text ++ ['.', '.', '.'] ∧
    truncate_text c2text 20
      ≠ pyTake 9 (pyTake (20 - 3) c2text) ++ ['\n', '\n', '.', '.', '.'] := by decide

/-- Witness for the amended claim C2: a paragraph break strictly after
20 // 2 makes the paragraph cut fire. -/
theorem truncate_text_cut_points_witness :
    truncate_text c2wtext 20
      = pyTake (pyRfind ['\n', '\n'] (pyTake (20 - 3) c2wtext)) (pyTake (20 - 3) c2wtext)
        ++ ['\n', '\n', '.', '.', '.']
      ∧ 20 - 3 ≤ 2 * pyRfind ['\n', '\n'] (pyTake (20 - 3) c2wtext) :=
  (truncate_text_cut_points c2wtext (pyTake (20 - 3) c2wtext) 20
    (pyRfind ['\n', '\n'] (pyTake (20 - 3) c2wtext))
    (pyRfind ['.', ' '] (pyTake (20 - 3) c2wtext))
    (by decide) rfl rfl rfl).1 (by decide)

theorem joinStr_cons_cons (sep x y : List Char) (ys : List (List Char)) :
    joinStr sep (x :: y :: ys) = x ++ sep ++ joinStr sep (y :: ys) := rfl

theorem costSum_joinStr (lines : List (List Char)) (h : lines ≠ []) :
    costSum lines = (joinStr ['\n'] lines).length + 1 := by
  induction lines with
  | nil => exact absurd rfl h
  | cons line rest ih =>
    cases rest with
    | nil => simp [costSum, joinStr]
    | cons y ys =>
      rw [joinStr_cons_cons, costSum]
      rw [ih (by simp)]
      simp only [List.length_append, List.length_cons, List.length_nil]
      omega

theorem accumulateLines_eq (total : Nat) (lines : List (List Char)) :
    ∀ cur taken : Nat, cur ≤ 1900 → 1900 < cur + costSum lines →
      accumulateLines total lines cur taken =
        greedyPref cur lines ++
          [s2l (r"...and ") ++ natStr (total - (taken + (greedyPref cur lines).length))
            ++ s2l (r" more commits")] := by
  induction lines with
  | nil =>
    intro cur taken h1 h2
    rw [costSum] at h2
    exact absurd h2 (by omega)
  | cons line rest ih =>
    intro cur taken h1 h2
    rw [costSum] at h2
    by_cases hc : 1900 < cur + line.length + 1
    · simp only [accumulateLines, greedyPref, if_pos hc, List.length_nil, Nat.add_zero,
        List.nil_append]
    · simp only [accumulateLines, greedyPref, if_neg hc, List.length_cons]
      rw [ih (cur + line.length + 1) (taken + 1) (by omega) (by omega)]
      have harg : ∀ x : Nat, taken + 1 + x = taken + (x + 1) := fun x => by omega
      rw [harg, List.cons_append]

theorem greedyPref_take (cur : Nat) (lines : List (List Char)) :
    greedyPref cur lines <+: lines := by
  induction lines generalizing cur with
  | nil => exact List.nil_prefix
  | cons line rest ih =>
    by_cases hc : 1900 < cur + line.length + 1
    · simp only [greedyPref, if_pos hc]
      exact List.nil_prefix
    · simp only [greedyPref, if_neg hc]
      obtain ⟨t, ht⟩ := ih (cur + line.length + 1)
      exact ⟨t, by rw [List.cons_append, ht]⟩

theorem greedyPref_budget (lines : List (List Char)) :
    ∀ cur : Nat, cur ≤ 1900 → cur + costSum (greedyPref cur lines) ≤ 1900 := by
  induction lines with
  | nil =>
    intro cur h
    simpa [greedyPref, costSum] using h
  | cons line rest ih =>
    intro cur h
    by_cases hc : 1900 < cur + line.length + 1
    · simpa [greedyPref, if_pos hc, costSum] using h
    · simp only [greedyPref, if_neg hc, costSum]
      have := ih (cur + line.length + 1) (by omega)
      omega

theorem greedyPref_maximal (lines : List (List Char)) :
    ∀ cur : Nat, (greedyPref cur lines).length < lines.length →
      1900 < cur + costSum (lines.take ((greedyPref cur lines).length + 1)) := by
  induction lines with
  | nil =>
    intro cur h
    simp [greedyPref] at h
  | cons line rest ih =>
    intro cur h
    by_cases hc : 1900 < cur + line.length + 1
    · simp only [greedyPref, if_pos hc, List.length_nil, Nat.zero_add, List.take_succ_cons,
        List.take_zero, costSum]
      omega
    · simp only [greedyPref, if_neg hc, List.length_cons] at h ⊢
      rw [List.take_succ_cons, costSum]
      have := ih (cur + line.length + 1) (by omega)
      omega

/-- Claim C3 (confirmed): for more than one commit whose joined digest lines exceed
2000 characters, the description is the maximal (greedy) prefix of lines
whose separator-inclusive running total stays within the 1900 budget,
followed by a single summary line naming exactly the number of commits not
represented by a preceding line, and nothing after it. -/
theorem digest_description_greedy (commits : List Commit) (repo : List Char)
    (now : PyDatetime) (auths : List (List Char)) (lines P : List (List Char))
    (hlines : lines = commits.map (fun c => format_commit_for_discord c repo))
    (hP : P = greedyPref 0 lines)
    (h1 : 1 < commits.length)
    (h2 : 2000 < (joinStr ['\n'] lines).length) :
    (create_discord_payload_for_commits commits repo now auths).description =
      joinStr ['\n'] (P ++ [s2l (r"...and ") ++ natStr (commits.length - P.length)
        ++ s2l (r" more commits")]) ∧
    P <+: lines ∧
    costSum P ≤ 1900 ∧
    (P.length < lines.length → 1900 < costSum (lines.take (P.length + 1))) ∧
    P.length < commits.length := by
  subst hP
  rcases commits with _ | ⟨a, _ | ⟨b, t⟩⟩
  · simp at h1
  · simp at h1
  · have hlenmap : lines.length = (a :: b :: t).length := by
      rw [hlines, List.length_map]
    have hne : lines ≠ [] := by
      intro hnil
      rw [hnil] at hlenmap
      simp at hlenmap
    have hcost : 1900 < 0 + costSum lines := by
      rw [costSum_joinStr lines hne]
      omega
    have hacc := accumulateLines_eq lines.length lines 0 0 (by omega) hcost
    have hPlt : (greedyPref 0 lines).length < (a :: b :: t).length := by
      rcases Nat.lt_or_ge (greedyPref 0 lines).length lines.length with hlt | hge
      · omega
      · have hle := (greedyPref_take 0 lines).length_le
        have heq : (greedyPref 0 lines).length = lines.length := le_antisymm hle hge
        have hPeq : greedyPref 0 lines = lines := (greedyPref_take 0 lines).eq_of_length heq
        have hb := greedyPref_budget lines 0 (by omega)
        rw [hPeq] at hb
        omega
    refine ⟨?_, greedyPref_take 0 lines, ?_, fun hlt => ?_, hPlt⟩
    · show (create_discord_payload_for_commits (a :: b :: t) repo now auths).description = _
      simp only [create_discord_payload_for_commits]
      rw [← hlines, if_pos h2, hacc]
      simp only [Nat.zero_add, hlenmap, List.length_cons]
    · have hb := greedyPref_budget lines 0 (by omega)
      omega
    · have := greedyPref_maximal lines 0 hlt
      omega

/-- Witness for claim C3 at a two-commit list whose first line alone busts
the budget: the description collapses to the single summary line. -/
theorem digest_description_greedy_witness :
    (create_discord_payload_for_commits c3commits c3repo c4now []).description =
      joinStr ['\n'] (greedyPref 0 c3lines
        ++ [s2l (r"...and ") ++ natStr (c3commits.length - (greedyPref 0 c3lines).length)
          ++ s2l (r" more commits")]) := by
  have hj : (joinStr ['\n'] c3lines).length
      = (format_commit_for_discord c3big c3repo).length + 1
        + (format_commit_for_discord c3small c3repo).length := by
    show (joinStr ['\n']
      [format_commit_for_discord c3big c3repo, format_commit_for_discord c3small c3repo]).length
        = _
    rw [joinStr_cons_cons]
    simp only [joinStr, List.length_append, List.length_cons, List.length_nil]
  have hf1 : 2000 ≤ (format_commit_for_discord c3big c3repo).length := by
    unfold format_commit_for_discord
    simp only [List.length_append]
    have hm : c3big.message.length = 2000 := List.length_replicate 2000 'a'
    omega
  exact (digest_description_greedy c3commits c3repo c4now [] c3lines (greedyPref 0 c3lines)
    rfl rfl (by decide) (by omega)).1


/-- Claim C4 (code bug): every payload carries the build-time timestamp, but
that timestamp has four fractional-second digits, not the three of the
specified format YYYY-MM-DDTHH:MM:SS.mmmZ.  The strftime format string ends
in a literal Z, so the slice [:-3] removes that Z plus only two of the six
microsecond digits, leaving four, before the final Z is appended.  The last
conjunct shows the spec-side predicate does accept a genuine
millisecond-precision string, so the failure is not vacuous. -/
theorem timestamp_four_fraction_digits :
    (∀ (commits : List Commit) (repo : List Char) (now : PyDatetime)
        (auths : List (List Char)),
      (create_discord_payload_for_commits commits repo now auths).timestamp
        = mk_timestamp now) ∧
    mk_timestamp c4now = s2l (r"2025-03-04T05:06:07.1234Z") ∧
    specMilliTimestamp (mk_timestamp c4now) = false ∧
    specMilliTimestamp (s2l (r"2025-03-04T05:06:07.123Z")) = true := by
  refine ⟨fun commits repo now auths => ?_, by decide, by decide, by decide⟩
  rcases commits with _ | ⟨a, _ | ⟨b, t⟩⟩ <;> rfl

/-- Claim C5 (confirmed): for more than one commit, and for any enumeration
of the distinct author names (Python set iteration order is unspecified, so
the theorem quantifies over every duplicate-free enumeration), the Authors
field joins the enumeration with a comma when it has at most 3 names, and
otherwise reads first-of-enumeration and N-1 others, where N is proved equal
to the number of distinct authors; the Commits field is the decimal count,
and both fields are inline. -/
theorem authors_field_characterization (commits : List Commit) (repo : List Char)
    (now : PyDatetime) (auths : List (List Char))
    (h1 : 1 < commits.length)
    (hnd : auths.Nodup)
    (hmem1 : ∀ a ∈ auths, a ∈ commits.map Commit.author)
    (hmem2 : ∀ a ∈ commits.map Commit.author, a ∈ auths) :
    auths.length = (commits.map Commit.author).dedup.length ∧
    (create_discord_payload_for_commits commits repo now auths).fields =
      [{ name := s2l (r"Authors")
         value := if auths.length ≤ 3 then joinStr (s2l (r", ")) auths
           else auths.headD [] ++ s2l (r" and ") ++ natStr (auths.length - 1)
             ++ s2l (r" others")
         inline := true },
       { name := s2l (r"Commits"), value := natStr commits.length, inline := true }] := by
  constructor
  · have hd1 : (commits.map Commit.author).dedup.Nodup := List.nodup_dedup _
    have hsub1 : auths ⊆ (commits.map Commit.author).dedup :=
      fun a ha => List.mem_dedup.mpr (hmem1 a ha)
    have hsub2 : (commits.map Commit.author).dedup ⊆ auths :=
      fun a ha => hmem2 a (List.mem_dedup.mp ha)
    exact le_antisymm (hnd.subperm hsub1).length_le (hd1.subperm hsub2).length_le
  · rcases commits with _ | ⟨a, _ | ⟨b, t⟩⟩
    · simp at h1
    · simp at h1
    · rfl

/-- Witness for claim C5: four commits with four distinct authors, and one
possible set enumeration of them. -/
theorem authors_field_characterization_witness :
    c5auths.length = (c5commits.map Commit.author).dedup.length :=
  (authors_field_characterization c5commits c3repo c4now c5auths (by decide) (by decide)
    (by decide) (by decide)).1

/-- Claim C6 counterexample: at a concrete commit the digest line is not of
the claimed shape (link text equal to the bare 8-character short hash); the
actual line wraps the short hash in backticks inside the link text. -/
theorem digest_line_shape_cex :
    format_commit_for_discord c6commit c6repo
      ≠ s2l (r"[") ++ c6commit.short_sha ++ s2l (r"](")
          ++ (s2l (r"https://github.com/") ++ c6repo ++ s2l (r"/commit/") ++ c6commit.sha)
          ++ s2l (r") ") ++ c6commit.message ++ s2l (r" - ") ++ c6commit.author ∧
    format_commit_for_discord c6commit c6repo
      = s2l (r"[`01234567`](https://github.com/vrischmann/sketch/commit/0123456789abcdef0123456789abcdef01234567) Fix bug - Alice") := by
  decide

/-- Claim C6 (amended): each digest line is a markdown link whose text is
the 8-character short hash wrapped in backticks, whose target is the commit
URL, followed by a space, the subject, the separator, and the author; the
short hash of a commit dictionary built from a sha of at least 8 characters
has exactly 8 characters; and for a multi-commit list whose joined lines fit
within 2000 characters these lines, joined by newlines, are the digest
description verbatim. -/
theorem digest_line_shape (sha msg body author repo : List Char) (h8 : 8 ≤ sha.length) :
    (mkCommitDict sha (msg, body, author)).short_sha.length = 8 ∧
    format_commit_for_discord (mkCommitDict sha (msg, body, author)) repo
      = s2l (r"[`") ++ pyTake 8 sha ++ s2l (r"`](")
          ++ (s2l (r"https://github.com/") ++ repo ++ s2l (r"/commit/") ++ sha)
          ++ s2l (r") ") ++ msg ++ s2l (r" - ") ++ author ∧
    (∀ (commits : List Commit) (now : PyDatetime) (auths : List (List Char)),
      1 < commits.length →
      ¬ 2000 < (joinStr ['\n'] (commits.map (fun c => format_commit_for_discord c repo))).length →
      (create_discord_payload_for_commits commits repo now auths).description
        = joinStr ['\n'] (commits.map (fun c => format_commit_for_discord c repo))) := by
  refine ⟨?_, rfl, ?_⟩
  · show (pyTake 8 sha).length = 8
    unfold pyTake
    rw [if_pos (by norm_num), List.length_take]
    have h8' : (8 : Int).toNat = 8 := rfl
    rw [h8']
    omega
  · intro commits now auths h1 h2
    rcases commits with _ | ⟨a, _ | ⟨b, t⟩⟩
    · simp at h1
    · simp at h1
    · show (if 2000 < (joinStr ['\n'] ((a :: b :: t).map
          (fun c => format_commit_for_discord c repo))).length then _ else _) = _
      rw [if_neg h2]

/-- Witness for the amended claim C6 at a 40-character sha. -/
theorem digest_line_shape_witness :
    (mkCommitDict (s2l (r"0123456789abcdef0123456789abcdef01234567"))
      ((s2l (r"Fix bug")), [], (s2l (r"Alice")))).short_sha.length = 8 :=
  (digest_line_shape (s2l (r"0123456789abcdef0123456789abcdef01234567"))
    (s2l (r"Fix bug")) [] (s2l (r"Alice")) (s2l (r"vrischmann/sketch")) (by decide)).1

/-- Claim C7 (confirmed): a parsed event whose before field is the all-zero
sentinel yields the no-range result without a warning, and the main flow
then builds the single fallback commit from GITHUB_SHA and the HEAD query;
an unset path, an unreadable file, and unparseable JSON each yield the
no-range result with a warning, and none of them is fatal (the embedded
resolver is a total function that never exits the process). -/
theorem zero_sha_fallback (after : Option (List Char)) (github_sha : List Char)
    (g : GitOracle) :
    get_commit_range (EventFile.parsed (some zeroSha) after)
      = { before := none, after := none, warned := false } ∧
    selectCommits github_sha g (get_commit_range (EventFile.parsed (some zeroSha) after))
      = [mkCommitDict github_sha g.head_info] ∧
    get_commit_range EventFile.noPath = { before := none, after := none, warned := true } ∧
    get_commit_range EventFile.unreadable = { before := none, after := none, warned := true } ∧
    get_commit_range EventFile.badJson = { before := none, after := none, warned := true } := by
  have h0 : get_commit_range (EventFile.parsed (some zeroSha) after)
      = { before := none, after := none, warned := false } := by
    simp [get_commit_range]
  refine ⟨h0, ?_, rfl, rfl, rfl⟩
  rw [h0]
  rfl

/-- Claim C10 (confirmed): an absent or null before field (both read back as
None) and an empty-string before field are falsy in the Python guard, so the
resolver returns the no-range pair exactly as for the all-zero sentinel, and
the main flow falls back to the single GITHUB_SHA commit. -/
theorem falsy_before_fallback (after : Option (List Char)) (github_sha : List Char)
    (g : GitOracle) :
    get_commit_range (EventFile.parsed none after)
      = { before := none, after := none, warned := false } ∧
    get_commit_range (EventFile.parsed (some []) after)
      = { before := none, after := none, warned := false } ∧
    get_commit_range (EventFile.parsed none after)
      = get_commit_range (EventFile.parsed (some zeroSha) after) ∧
    selectCommits github_sha g (get_commit_range (EventFile.parsed none after))
      = [mkCommitDict github_sha g.head_info] ∧
    selectCommits github_sha g (get_commit_range (EventFile.parsed (some []) after))
      = [mkCommitDict github_sha g.head_info] := by
  have hz : get_commit_range (EventFile.parsed (some zeroSha) after)
      = { before := none, after := none, warned := false } := by
    simp [get_commit_range]
  have he : get_commit_range (EventFile.parsed (some []) after)
      = { before := none, after := none, warned := false } := by
    simp [get_commit_range]
  have hn : get_commit_range (EventFile.parsed none after)
      = { before := none, after := none, warned := false } := rfl
  refine ⟨hn, he, hn.trans hz.symm, rfl, ?_⟩
  rw [he]
  rfl

/-- Claim C8 (confirmed): delivery succeeds, with the success message, if
and only if the HTTP status is exactly 204; every other status, the 2xx ones
included, logs the response body and exits with code 1; and the
webhook-gone message is printed exactly for a 403 whose body contains the
error code 1010 marker. -/
theorem webhook_delivery_status (status : Nat) (body : List Char) :
    ((send_webhook status body).exitCode = 0 ↔ status = 204) ∧
    ((send_webhook status body).printedSuccess = true ↔ status = 204) ∧
    (status ≠ 204 →
      (send_webhook status body).exitCode = 1
        ∧ (send_webhook status body).loggedBody = true) ∧
    ((send_webhook status body).printedWebhookGone = true
      ↔ status = 403 ∧ substrOf err1010 body = true) := by
  unfold send_webhook
  by_cases h1 : 200 ≤ status ∧ status < 300
  · by_cases h2 : status = 204
    · rw [if_pos h1, if_pos h2]
      refine ⟨by simp [h2], by simp [h2], fun hne => absurd h2 hne, ?_⟩
      simp only [Bool.false_eq_true, false_iff]
      rintro ⟨h403, -⟩
      omega
    · rw [if_pos h1, if_neg h2]
      refine ⟨by simp [h2], by simp [h2], fun _ => ⟨rfl, rfl⟩, ?_⟩
      simp only [Bool.false_eq_true, false_iff]
      rintro ⟨h403, -⟩
      omega
  · rw [if_neg h1]
    have hne : status ≠ 204 := by omega
    refine ⟨by simp [hne], by simp [hne], fun _ => ⟨rfl, rfl⟩, ?_⟩
    simp only [Bool.and_eq_true, beq_iff_eq]

/-- Witness for claim C8 at status 403 with the dead-webhook body. -/
theorem webhook_delivery_status_witness :
    (send_webhook 403 err1010).exitCode = 1 ∧ (send_webhook 403 err1010).loggedBody = true
      ∧ (send_webhook 403 err1010).printedWebhookGone = true := by
  have h := webhook_delivery_status 403 err1010
  exact ⟨(h.2.2.1 (by decide)).1, (h.2.2.1 (by decide)).2, h.2.2.2.mpr ⟨rfl, by decide⟩⟩

/-- Claim C9 (confirmed): with the three required variables present and test
mode set to the string 1, the run issues no HTTP request, prints the
assembled payload, and exits 0.  The git oracles are total functions, which
models the commit reads succeeding. -/
theorem test_mode_no_network (env : Env) (g : GitOracle) (now : PyDatetime)
    (auths : List (List Char)) (status : Nat) (body : List Char)
    (ht : env.test_mode = some (s2l (r"1")))
    (h1 : envPresent env.github_sha = true)
    (h2 : envPresent env.github_repository = true)
    (h3 : envPresent env.discord_webhook = true) :
    (mainRun env g now auths status body).sentHttp = false ∧
    (mainRun env g now auths status body).exitCode = 0 ∧
    (mainRun env g now auths status body).printedPayload
      = some (create_discord_payload_for_commits
          (selectCommits (env.github_sha.getD []) g (get_commit_range env.event_file))
          (env.github_repository.getD []) now auths) := by
  unfold mainRun
  rw [if_neg (by simp [h1]), if_neg (by simp [h2]), if_neg (by simp [h3]), if_pos ht]
  exact ⟨rfl, rfl, rfl⟩

/-- Witness for claim C9 at a fully concrete environment. -/
theorem test_mode_no_network_witness :
    (mainRun c9env c9git c4now [] 204 []).sentHttp = false ∧
    (mainRun c9env c9git c4now [] 204 []).exitCode = 0 ∧
    (mainRun c9env c9git c4now [] 204 []).printedPayload
      = some (create_discord_payload_for_commits
          (selectCommits (c9env.github_sha.getD []) c9git (get_commit_range c9env.event_file))
          (c9env.github_repository.getD []) c4now []) :=
  test_mode_no_network c9env c9git c4now [] 204 [] rfl rfl rfl rfl
